import Mathlib

/-!
Shallow embedding of the syrinc LRC core (src/modules/lrc-core plus the
timestamp-conversion helpers it calls), with strings modelled as `List Char`,
C++ integer types as `Int`/`Nat`, and the exceptions that `std::stol` can
throw modelled by `Option` (`none` = an exception propagates out of the core).
-/

namespace Syrinc

/-- String literals, as lists of characters. -/
def sl (s : String) : List Char := s.toList

/-- `std::isdigit` for ASCII: the ten digit characters. -/
def isDigitC (c : Char) : Bool :=
  c = '0' || c = '1' || c = '2' || c = '3' || c = '4' ||
  c = '5' || c = '6' || c = '7' || c = '8' || c = '9'

/-- `std::isspace` (C locale): space, \t, \n, \v, \f, \r. -/
def isSpaceChar (c : Char) : Bool :=
  c = ' ' || c = '\t' || c = '\n' || c = '\x0b' || c = '\x0c' || c = '\r'

/-- The four bracket marker characters treated specially by the tokenizer. -/
def isMarker (c : Char) : Bool :=
  c = '[' || c = ']' || c = '<' || c = '>'

/-- Decimal digit character for a value below ten (as in `std::to_string`). -/
def digitChar (n : Nat) : Char :=
  match n with
  | 0 => '0' | 1 => '1' | 2 => '2' | 3 => '3' | 4 => '4'
  | 5 => '5' | 6 => '6' | 7 => '7' | 8 => '8' | _ => '9'

/-- Numeric value of a decimal digit character. -/
def charVal (c : Char) : Nat :=
  match c with
  | '0' => 0 | '1' => 1 | '2' => 2 | '3' => 3 | '4' => 4
  | '5' => 5 | '6' => 6 | '7' => 7 | '8' => 8 | _ => 9

/-- Value of a string of decimal digits (most significant first). -/
def digitsVal (ds : List Char) : Nat :=
  ds.foldl (fun a c => a * 10 + charVal c) 0

/-- Conversion of a C++ `long` value to `unsigned long`: reduction modulo
2^64, as performed by the assignments `ts.mm = std::stol(...)`. -/
def toU64 (v : Int) : Nat := (v % 18446744073709551616).toNat

/-- Conversion of a C++ `unsigned long` expression to `int64_t`/`long`:
reduction modulo 2^64 reinterpreted in two's complement (the defined
behaviour of the implementations this code targets). -/
def toS64 (n : Nat) : Int :=
  let m := n % 18446744073709551616
  if m < 9223372036854775808 then (m : Int) else (m : Int) - 18446744073709551616

/-- `std::stol`: skip leading whitespace, read an optional sign and then a
maximal run of decimal digits.  If no digit is read the C++ call throws
`std::invalid_argument`, and if the value falls outside the range of `long`
(magnitude above 2^63 - 1, or 2^63 for a negative value) it throws
`std::out_of_range`; both throws are modelled as `none`. -/
def stol (s : List Char) : Option Int :=
  match s.dropWhile isSpaceChar with
  | [] => none
  | c :: r =>
    if c = '-' then
      let ds := r.takeWhile isDigitC
      if ds = [] then none
      else if 9223372036854775808 < digitsVal ds then none
      else some (-(digitsVal ds : Int))
    else if c = '+' then
      let ds := r.takeWhile isDigitC
      if ds = [] then none
      else if 9223372036854775807 < digitsVal ds then none
      else some ((digitsVal ds : Int))
    else
      let ds := (c :: r).takeWhile isDigitC
      if ds = [] then none
      else if 9223372036854775807 < digitsVal ds then none
      else some ((digitsVal ds : Int))

/-- `substr(pos, len)` on strings (in-range in every use below, so the
clamping behaviour of `drop`/`take` agrees with `std::string::substr`). -/
def substr (s : List Char) (pos len : Nat) : List Char :=
  (s.drop pos).take len

/-- `is_it_a_timestamp` (timestamp.cpp): non-empty, exactly one ':' and one
'.', and every character other than an optional leading '-' is a digit,
':' or '.'. -/
def is_it_a_timestamp (source : List Char) : Bool :=
  match source with
  | [] => false
  | c :: rest =>
    let body := if c = '-' then rest else c :: rest
    (source.count ':' = 1) && (source.count '.' = 1) &&
    body.all (fun x => isDigitC x || x = ':' || x = '.')

/-- `is_numeric_only` (timestamp.cpp): every character a digit or '.',
except that the first may be '-'; the empty string counts as numeric. -/
def is_numeric_only (source : List Char) : Bool :=
  match source with
  | [] => true
  | c :: rest =>
    (isDigitC c || c = '.' || c = '-') && rest.all (fun x => isDigitC x || x = '.')

/-- Decimal rendering of a natural number (`std::to_string`), with explicit
fuel so that it reduces definitionally. -/
def ntdAux : Nat → Nat → List Char
  | 0, _ => []
  | fuel + 1, n =>
    if n < 10 then [digitChar n] else ntdAux fuel (n / 10) ++ [digitChar (n % 10)]

/-- Decimal rendering of a natural number, most significant digit first. -/
def natToDigits (n : Nat) : List Char := ntdAux (n + 1) n

/-- `ts_components` (timestamp.hpp): sign flag plus minute/second/centisecond
magnitudes.  The legacy `tsmap` has the same shape and is modelled by the
same structure. -/
structure ts_components where
  is_negative : Bool
  mm : Nat
  ss : Nat
  cs : Nat
deriving DecidableEq, Repr

/-- `timestamp::as_tsmap`: split a millisecond duration into components by
progressive reduction; a negative duration is split by magnitude unless
`zero_negative_timestamps` asks for a zeroed result.  (The C++ leaves the
`is_negative` field of the result uninitialised; no caller reads it, and the
model sets it from the local sign flag of the code.) -/
def as_tsmap (duration : Int) (zero_negative_timestamps : Bool) : ts_components :=
  if duration < 0 then
    if zero_negative_timestamps then ⟨false, 0, 0, 0⟩
    else
      let r := (-duration).toNat
      let mm := r / 60000
      let r1 := r - mm * 60000
      let ss := r1 / 1000
      let r2 := r1 - ss * 1000
      ⟨true, mm, ss, r2 / 10⟩
  else
    let r := duration.toNat
    let mm := r / 60000
    let r1 := r - mm * 60000
    let ss := r1 / 1000
    let r2 := r1 - ss * 1000
    ⟨false, mm, ss, r2 / 10⟩

/-- `timestamp::as_string`: `[-]mm:ss.cs`, each component zero-padded to two
digits unless `no_filling` is set; '-' exactly when the duration is
negative. -/
def as_string (duration : Int) (no_filling : Bool) : List Char :=
  let ts := as_tsmap duration false
  (if duration < 0 then ['-'] else [])
  ++ (if ts.mm < 10 && !no_filling then ['0'] else []) ++ natToDigits ts.mm ++ [':']
  ++ (if ts.ss < 10 && !no_filling then ['0'] else []) ++ natToDigits ts.ss ++ ['.']
  ++ (if ts.cs < 10 && !no_filling then ['0'] else []) ++ natToDigits ts.cs

/-- `parse_timestamp` (lrc-core/timestamp.cpp).  Returns the signed duration
in milliseconds together with the carry-normalization warning: `none` when no
warning is signalled, and `some (original, corrected)` — the two textual
forms the emitted warning message carries — when seconds ≥ 60 or
centiseconds ≥ 100 forced a re-derivation.  The outer `Option` is the
`std::stol` exception channel: components such as the empty minute part of
":1.2" make it throw `std::invalid_argument`, and over-`LONG_MAX` components
make it throw `std::out_of_range`.  The component sums and the sign
multiplication happen in `unsigned long` (mod 2^64 via `toU64`/`toS64`),
and the result is stored into an `int64_t`. -/
def parse_timestamp (source : List Char) :
    Option (Int × Option (List Char × List Char)) :=
  if ¬ is_it_a_timestamp source then some (0, none)
  else
    let colon_pos := source.findIdx (fun c => c = ':')
    let dot_pos := source.findIdx (fun c => c = '.')
    let is_negative : Bool := source.head? = some '-'
    let minutes_component := substr source (if is_negative then 1 else 0) colon_pos
    let seconds_component := substr source (colon_pos + 1) (source.length - dot_pos - 1)
    let centiseconds_component := substr source (dot_pos + 1) (source.length - dot_pos - 1)
    match stol minutes_component, stol seconds_component, stol centiseconds_component with
    | some mmv, some ssv, some csv =>
      let mm0 := toU64 mmv
      let ss0 := toU64 ssv
      let cs0 := toU64 csv
      let carry := decide (60 ≤ ss0) || decide (100 ≤ cs0)
      let ts : ts_components :=
        if carry then as_tsmap (toS64 (mm0 * 60000 + ss0 * 1000 + cs0 * 10)) false
        else ⟨is_negative, mm0, ss0, cs0⟩
      let duration : Int :=
        toS64 ((ts.mm * 60000 + ts.ss * 1000 + ts.cs * 10)
          * (if is_negative then 18446744073709551615 else 1))
      some (duration, if carry then some (source, as_string duration false) else none)
    | _, _, _ => none

/-- `timestamp::apply_offset`: subtract `offset * (invert ? -1 : 1)` from the
duration and clamp at zero. -/
def apply_offset (duration offset : Int) (invert_direction : Bool) : Int :=
  let d := duration - offset * (if invert_direction then -1 else 1)
  if d ≤ 0 then 0 else d

/-- Character loop of `tokenize_line` (token.cpp): `acc` holds the characters
of the current token in reverse (`acc ≠ []` is the `in_token` flag). -/
def tokenize_aux (lyrics : Bool) : List Char → List Char → List (List Char)
  | [], acc => if acc = [] then [] else [acc.reverse]
  | c :: rest, acc =>
    if c = ' ' then
      if acc = [] then tokenize_aux lyrics rest []
      else acc.reverse :: tokenize_aux lyrics rest []
    else if lyrics && isMarker c then
      if acc = [] then [c] :: tokenize_aux lyrics rest []
      else acc.reverse :: [c] :: tokenize_aux lyrics rest []
    else tokenize_aux lyrics rest (c :: acc)

/-- `tokenize_line` (token.cpp): split on spaces; in lyrics mode every
bracket marker character is cut out as its own single-character token. -/
def tokenize_line (source : List Char) (treat_as_lyrics_line : Bool) : List (List Char) :=
  tokenize_aux treat_as_lyrics_line source []

/-- Tail of the serialization loop of `serialize_tokens` (token.cpp): `prev`
is the token written last; no joint is written before `]`, `>` or `:` nor
after `[` or `<` in lyrics mode. -/
def serialize_rest (joint : List Char) (lyrics : Bool) :
    List Char → List (List Char) → List Char
  | _, [] => []
  | prev, t :: rest =>
    let dont_write_joint :=
      lyrics && (prev = ['['] || t = [']'] || prev = ['<'] || t = ['>'] || t = [':'])
    (if dont_write_joint then [] else joint) ++ t ++ serialize_rest joint lyrics t rest

/-- `serialize_tokens` (token.cpp): concatenate tokens with `joint` between
them, except at the tight-bracket positions in lyrics mode. -/
def serialize_tokens (token_vector : List (List Char)) (joint : List Char)
    (treat_as_lyrics_line : Bool) : List Char :=
  match token_vector with
  | [] => []
  | t :: rest => t ++ serialize_rest joint treat_as_lyrics_line t rest

/-- `trim_string` (token.cpp): strip leading and trailing whitespace. -/
def trim_string (s : List Char) : List Char :=
  ((s.dropWhile isSpaceChar).reverse.dropWhile isSpaceChar).reverse

/-- `tag` (tag.hpp): a name/value pair. -/
structure tag where
  name : List Char
  value : List Char
deriving DecidableEq, Repr

/-- `slice_at_character` (tag.cpp): split at the first occurrence of `joint`;
if absent, the whole string is the name and the value is empty. -/
def slice_at_character (source : List Char) (joint : Char) : tag :=
  let joint_index := source.findIdx (fun c => c = joint)
  if joint_index = source.length then ⟨source, []⟩
  else ⟨source.take joint_index, source.drop (joint_index + 1)⟩

/-- Bracket-interior scan of `read_tags_from_line` (tag.cpp): `building`
holds the current candidate in reverse, `in_tag` the inside-a-bracket flag.
An opening marker only switches the flag on; a closing marker emits the
non-empty candidate; a trailing unterminated candidate is still emitted. -/
def extract_candidates : List Char → List Char → Bool → List (List Char)
  | [], building, _ => if building = [] then [] else [building.reverse]
  | c :: rest, building, in_tag =>
    if c = '[' || c = '<' then extract_candidates rest building true
    else if c = ']' || c = '>' then
      (if building = [] then [] else [building.reverse]) ++ extract_candidates rest [] false
    else if in_tag then extract_candidates rest (c :: building) in_tag
    else extract_candidates rest building in_tag

/-- `read_tags_from_line` (tag.cpp): candidates that are timestamp-shaped
become `{"time", candidate}`; the rest are sliced at the first ':' and both
sides trimmed. -/
def read_tags_from_line (source : List Char) : List tag :=
  (extract_candidates source [] false).map (fun cand =>
    if is_it_a_timestamp cand then ⟨sl "time", cand⟩
    else
      let slicen := slice_at_character cand ':'
      ⟨trim_string slicen.name, trim_string slicen.value⟩)

/-- `std::string::find` as substring containment (an empty needle is always
found, at position 0). -/
def containsSub (needle : List Char) : List Char → Bool
  | [] => needle.isPrefixOf []
  | c :: rest => needle.isPrefixOf (c :: rest) || containsSub needle rest

/-- One level of `pop_tag` (tag.cpp); `fuel` bounds the
repeat-until-exhausted recursion (the top-level entry supplies one unit per
token, which covers every possible chain of removals). -/
def pop_tag_fuel : Nat → List Char → List Char → List Char
  | 0, source, _ => source
  | fuel + 1, source, key =>
    let toks := tokenize_line source true
    let kidx := toks.findIdx (fun t => containsSub key t)
    let match_count := (toks.filter (fun t => containsSub key t)).length
    let will_need_to_repeat := decide (2 ≤ match_count)
    if kidx = toks.length then source
    else
      let opening? := ((toks.take (kidx + 1)).reverse.findIdx? (fun t => t = ['['])).map
        (fun j => kidx - j)
      let opening := opening?.getD 0
      match (toks.drop kidx).findIdx? (fun t => t = [']']) with
      | none => source
      | some jc =>
        let closing := kidx + jc
        if (opening = 0 && !(toks.headD [] = ['['])) || decide (toks.length ≤ opening)
            || decide (toks.length ≤ closing) || decide (closing < opening) then source
        else
          let thepart := (toks.drop opening).take (closing - opening)
          let thepart_serialized := serialize_tokens thepart [' '] false
          let colon_index := thepart_serialized.findIdx (fun c => c = ':')
          if colon_index ≠ thepart_serialized.length
              && !(containsSub key (thepart_serialized.take colon_index)) then source
          else
            let lpart := toks.take opening
            let rpart := toks.drop (closing + 1)
            let out := serialize_tokens (lpart ++ rpart) [' '] true
            if will_need_to_repeat then pop_tag_fuel fuel out key else out

/-- `pop_tag` (tag.cpp): remove the bracketed span around the first token
containing `key`, re-validating that the match lies left of the first ':'
of the serialized span, and repeat while more matches existed. -/
def pop_tag (source key : List Char) : List Char :=
  pop_tag_fuel ((tokenize_line source true).length + 1) source key

/-- Legacy `ms_to_timestamp` (timestampconv.cpp): renders `[-]mm:ss.cs`; the
`no_filling` parameter is accepted but (as in the source) never used, and
`zero_negative_timestamps` short-circuits negatives to "00:00.00". -/
def ms_to_timestamp (ms : Int) (no_filling zero_negative_timestamps : Bool) : List Char :=
  if ms < 0 && zero_negative_timestamps then sl "00:00.00"
  else
    let ts := as_tsmap ms zero_negative_timestamps
    (if ms < 0 then ['-'] else [])
    ++ (if ts.mm < 10 then ['0'] else []) ++ natToDigits ts.mm ++ [':']
    ++ (if ts.ss < 10 then ['0'] else []) ++ natToDigits ts.ss ++ ['.']
    ++ (if ts.cs < 10 then ['0'] else []) ++ natToDigits ts.cs

/-- One level of the legacy `divide_timestamp` (timestampconv.cpp), the
splitter `timestamp_to_ms` calls; on a carry it re-divides the re-rendered
string (one extra level of fuel covers that, since the re-rendered form is
canonical).  For a non-timestamp the C++ returns an uninitialised struct;
that branch is unreachable from the guarded callers and modelled as zeros. -/
def divide_fuel : Nat → List Char → Option ts_components
  | 0, _ => some ⟨false, 0, 0, 0⟩
  | fuel + 1, source =>
    if ¬ is_it_a_timestamp source then some ⟨false, 0, 0, 0⟩
    else
      let colon_pos := source.findIdx (fun c => c = ':')
      let dot_pos := source.findIdx (fun c => c = '.')
      let is_negative : Bool := source.head? = some '-'
      let minutes_component := substr source (if is_negative then 1 else 0) colon_pos
      let seconds_component := substr source (colon_pos + 1) (source.length - dot_pos - 1)
      let centiseconds_component := substr source (dot_pos + 1) (source.length - dot_pos - 1)
      match stol minutes_component, stol seconds_component, stol centiseconds_component with
      | some mmv, some ssv, some csv =>
        let mm0 := toU64 mmv
        let ss0 := toU64 ssv
        let cs0 := toU64 csv
        if decide (60 ≤ ss0) || decide (100 ≤ cs0) then
          divide_fuel fuel (ms_to_timestamp (toS64 (mm0 * 60000 + ss0 * 1000 + cs0 * 10)) false false)
        else some ⟨is_negative, mm0, ss0, cs0⟩
      | _, _, _ => none

/-- Legacy `divide_timestamp` (timestampconv.cpp): at most one re-division
happens, so two units of fuel suffice. -/
def divide_timestamp (source : List Char) : Option ts_components :=
  divide_fuel 2 source

/-- Legacy `timestamp_to_ms` (timestampconv.cpp): 0 for non-timestamps,
otherwise the signed sum of the divided components. -/
def timestamp_to_ms (source : List Char) : Option Int :=
  if ¬ is_it_a_timestamp source then some 0
  else
    (divide_timestamp source).map (fun ts =>
      toS64 ((ts.mm * 60000 + ts.ss * 1000 + ts.cs * 10)
        * (if ts.is_negative then 18446744073709551615 else 1)))

/-- `apply_offset_to_timestamp` (line.cpp): non-timestamps pass through;
otherwise convert to ms, subtract the (possibly inverted) offset, clamp at
zero and re-render. -/
def apply_offset_to_timestamp (source : List Char) (offset : Int)
    (invert_direction : Bool) : Option (List Char) :=
  if ¬ is_it_a_timestamp source then some source
  else do
    let ts_in_ms ← timestamp_to_ms source
    let shifted := ts_in_ms - offset * (if invert_direction then -1 else 1)
    let clamped := if shifted ≤ 0 then 0 else shifted
    some (ms_to_timestamp clamped false false)

/-- `correct_line_offset` (line.cpp): tokenize in lyrics mode, rewrite every
timestamp-shaped token through `apply_offset_to_timestamp`, re-serialize. -/
def correct_line_offset (source : List Char) (offset : Int)
    (invert_direction : Bool) : Option (List Char) := do
  let line_tokens := tokenize_line source true
  let corrected ← line_tokens.mapM (fun t =>
    if ¬ is_it_a_timestamp t then some t
    else apply_offset_to_timestamp t offset invert_direction)
  some (serialize_tokens corrected [' '] true)

/-- The option flags and running offset of `process_lyrics` (process.cpp). -/
structure proc_opts where
  correctoffset : Bool
  overrideoffset : Bool
  invertoffset : Bool
  dropmetadata : Bool
  offset : Int
deriving DecidableEq, Repr

/-- Option-string loop of `process_lyrics` (process.cpp): each token is
sliced at ':' and trimmed; `correctoffset` with a non-empty numeric value
overrides the offset (through `std::stol`, which can throw on values such
as "." that pass `is_numeric_only`). -/
def read_options : List (List Char) → proc_opts → Option proc_opts
  | [], st => some st
  | o :: rest, st =>
    let opair := slice_at_character o ':'
    let nm := trim_string opair.name
    let vl := trim_string opair.value
    if nm = sl "correctoffset" then
      if vl ≠ [] && is_numeric_only vl then
        match stol vl with
        | none => none
        | some v => read_options rest ⟨true, true, st.invertoffset, st.dropmetadata, v⟩
      else read_options rest ⟨true, st.overrideoffset, st.invertoffset, st.dropmetadata, st.offset⟩
    else
      let st1 : proc_opts :=
        if nm = sl "invertoffset" then
          ⟨st.correctoffset, st.overrideoffset, true, st.dropmetadata, st.offset⟩
        else st
      let st2 : proc_opts :=
        if nm = sl "dropmetadata" then
          ⟨st1.correctoffset, st1.overrideoffset, st1.invertoffset, true, st1.offset⟩
        else st1
      read_options rest st2

/-- Tag scan of the line loop: the first tag whose key is "offset" or "of"
wins; later ones on the same line are ignored. -/
def find_offset_tag : List tag → Option tag
  | [] => none
  | t :: rest =>
    if t.name = sl "offset" || t.name = sl "of" then some t
    else find_offset_tag rest

/-- The fixed metadata keys popped by `dropmetadata`, in source order. -/
def metadata_keys : List (List Char) :=
  [sl "ti", sl "ar", sl "al", sl "au", sl "le", sl "by", sl "re", sl "ve"]

/-- One iteration of the line loop of `process_lyrics` (process.cpp):
returns the updated running offset and the emitted line, if any. -/
def process_line (opts : proc_opts) (offset : Int) (line : List Char) :
    Option (Int × Option (List Char)) := do
  let tags := read_tags_from_line line
  let (offset', has_offset_tag) ←
    match find_offset_tag tags with
    | none => some (offset, false)
    | some t =>
      if t.value ≠ [] && is_numeric_only t.value then
        if ¬ opts.overrideoffset then
          match stol t.value with
          | none => none
          | some v => some (v, true)
        else some (offset, true)
      else some (offset, true)
  let l1 := if opts.dropmetadata then metadata_keys.foldl pop_tag line else line
  let l2 := if has_offset_tag then pop_tag l1 (sl "of") else l1
  if trim_string l2 = [] then some (offset', none)
  else if opts.correctoffset then
    (correct_line_offset l2 offset' opts.invertoffset).map (fun r => (offset', some r))
  else some (offset', some l2)

/-- Fold of the line loop, threading the running offset. -/
def process_lines (opts : proc_opts) : Int → List (List Char) → Option (List (List Char))
  | _, [] => some []
  | offset, line :: rest => do
    let (offset', emitted) ← process_line opts offset line
    let tail ← process_lines opts offset' rest
    some (match emitted with | none => tail | some s => s :: tail)

/-- `process_lyrics` (process.cpp): parse the option string, then walk the
lines once with the running offset seeded by the override (or 0). -/
def process_lyrics (lyrics : List (List Char)) (options : List Char) :
    Option (List (List Char)) := do
  let opts ← read_options (tokenize_line options false) ⟨false, false, false, false, 0⟩
  process_lines opts opts.offset lyrics

/-- A token that is one of the four singleton bracket markers. -/
def markerTok (t : List Char) : Prop :=
  t = ['['] ∨ t = [']'] ∨ t = ['<'] ∨ t = ['>']

instance (t : List Char) : Decidable (markerTok t) :=
  inferInstanceAs (Decidable (_ ∨ _ ∨ _ ∨ _))

/-- A non-empty token free of spaces and bracket markers (the shape of every
non-marker token `tokenize_line` produces in lyrics mode). -/
def wfTok (t : List Char) : Prop :=
  t ≠ [] ∧ ∀ c ∈ t, c ≠ ' ' ∧ isMarker c = false

/-- A component as `timestamp::as_string` renders it with filling: the
decimal digits, zero-padded to two when the value is below ten. -/
def pad2 (n : Nat) : List Char :=
  (if n < 10 then ['0'] else []) ++ natToDigits n

/-- The canonical textual form of a timestamp, exactly as
`timestamp::as_string` renders it with filling: optional sign, minutes
zero-padded to at least two digits, two-digit seconds and centiseconds. -/
def canonical_ts (neg : Bool) (mm ss cs : Nat) : List Char :=
  (if neg then ['-'] else []) ++ pad2 mm ++ ':' :: pad2 ss ++ '.' :: pad2 cs

/-- C1 (counterexample): on input lines `["[offset: 750]", "[00:40.10]She was crying"]`
with options `"correctoffset"`, `process_lyrics` does NOT return
`["[00:41.35]She was crying"]` as the claim states. -/
theorem C1_claimed_output_refuted :
    process_lyrics [sl "[offset: 750]", sl "[00:40.10]She was crying"]
      (sl "correctoffset") ≠ some [sl "[00:41.35]She was crying"] := by
  decide

/-- C1 (amended): the same input yields exactly `["[00:39.35] She was crying"]`:
the offset line is dropped, the timestamp is advanced by the +750 ms offset
(positive offsets decrease the time under the documented sign convention),
and re-serialization inserts a single space after the closing bracket. -/
theorem C1_end_to_end :
    process_lyrics [sl "[offset: 750]", sl "[00:40.10]She was crying"]
      (sl "correctoffset") = some [sl "[00:39.35] She was crying"] := by
  decide

/-- C2: the core is NOT total on malformed content: `":1.2"` passes the
timestamp-shape predicate but its empty minutes component makes `std::stol`
throw inside `parse_timestamp` (modelled as `none`), and the option value
`"."` passes `is_numeric_only` but makes `std::stol` throw inside the
option loop of `process_lyrics` — contradicting the never-raise philosophy
(and the code's own comment that no try-catch is needed). -/
theorem C2_stol_exception :
    is_it_a_timestamp (sl ":1.2") = true
    ∧ parse_timestamp (sl ":1.2") = none
    ∧ process_lyrics [sl "a lyric line"] (sl "correctoffset:.") = none
    ∧ is_numeric_only (sl ".") = true ∧ is_numeric_only (sl "-") = true := by
  decide

/-- C3: `apply_offset` returns `duration - offset * (invert ? -1 : 1)` when
that quantity is positive and exactly 0 when it is ≤ 0; the result is never
negative, and `apply_offset 0 1 false = 0`. -/
theorem C3_apply_offset_clamp (d o : Int) (inv : Bool) :
    (0 < d - o * (if inv then -1 else 1) →
      apply_offset d o inv = d - o * (if inv then -1 else 1))
    ∧ (d - o * (if inv then -1 else 1) ≤ 0 → apply_offset d o inv = 0)
    ∧ 0 ≤ apply_offset d o inv
    ∧ apply_offset 0 1 false = 0 := by
  refine ⟨?_, ?_, ?_, by decide⟩ <;>
    · simp only [apply_offset]
      split <;> omega

/-- C3 witness: the clamp specification evaluated at concrete inputs. -/
theorem C3_apply_offset_clamp_witness :
    apply_offset 5 1 false = 4 ∧ apply_offset 0 3 false = 0 :=
  ⟨((C3_apply_offset_clamp 5 1 false).1 (by decide)).trans (by decide),
   (C3_apply_offset_clamp 0 3 false).2.1 (by decide)⟩

/-- C4: `parse_timestamp "1:75.00"` equals `parse_timestamp "02:15.00"` in
milliseconds (135000: seconds ≥ 60 carry into minutes), the malformed form
signals a warning carrying the original and corrected texts, and the
canonical form signals no warning. -/
theorem C4_carry_normalization :
    parse_timestamp (sl "1:75.00") = some (135000, some (sl "1:75.00", sl "02:15.00"))
    ∧ parse_timestamp (sl "02:15.00") = some (135000, none) := by
  decide

/-- C7: `pop_tag "[x:1][x:2] rest" "x"` removes both spans, leaving
`"rest"`: the removal repeats after the first pop until no match remains. -/
theorem C7_pop_repetition :
    pop_tag (sl "[x:1][x:2] rest") (sl "x") = sl "rest" := by
  decide

/-- C8: under `correctoffset`, a line that is exactly `"[offset: 750]"`
produces no output line: the popped remainder is empty and the line is
dropped. -/
theorem C8_offset_line_dropped :
    process_lyrics [sl "[offset: 750]"] (sl "correctoffset") = some []
    ∧ pop_tag (sl "[offset: 750]") (sl "of") = [] := by
  decide

/-- C10: `apply_offset d 0 inv = 0` for every `d ≤ 0` — a zero offset is not
the identity on non-positive durations — and correspondingly the line
corrector rewrites a negative timestamp token to "00:00.00" even with a
running offset of 0. -/
theorem C10_zero_offset_not_identity (d : Int) (inv : Bool) (h : d ≤ 0) :
    apply_offset d 0 inv = 0
    ∧ apply_offset_to_timestamp (sl "-00:00.14") 0 false = some (sl "00:00.00")
    ∧ correct_line_offset (sl "[-00:00.14]And I was running far away") 0 false
      = some (sl "[00:00.00] And I was running far away") := by
  refine ⟨?_, by decide, by decide⟩
  cases inv <;> simp only [apply_offset] <;> split <;> omega

/-- C10 witness: the zero-offset clamp evaluated at the duration of
"-00:00.14". -/
theorem C10_zero_offset_not_identity_witness :
    apply_offset (-140) 0 true = 0 :=
  (C10_zero_offset_not_identity (-140) true (by decide)).1

/-- Concatenating the tokens of `tokenize_aux` recovers the pending
accumulator followed by the input with its spaces removed. -/
theorem tokenize_aux_join (ly : Bool) :
    ∀ (s acc : List Char),
      (tokenize_aux ly s acc).foldr (· ++ ·) [] =
        acc.reverse ++ s.filter (fun c => !(c == ' '))
  | [], acc => by
    by_cases h : acc = [] <;> simp [tokenize_aux, h]
  | c :: rest, acc => by
    by_cases hsp : c = ' '
    · subst hsp
      by_cases h : acc = [] <;>
        simp [tokenize_aux, h, tokenize_aux_join ly rest []]
    · by_cases hm : ly && isMarker c
      · by_cases h : acc = [] <;>
          simp [tokenize_aux, hsp, hm, h, tokenize_aux_join ly rest [], hsp]
      · simp [tokenize_aux, hsp, hm, tokenize_aux_join ly rest (c :: acc)]

/-- `tokenize_aux` never emits an empty token. -/
theorem tokenize_aux_ne_nil (ly : Bool) :
    ∀ (s acc : List Char), ∀ t ∈ tokenize_aux ly s acc, t ≠ []
  | [], acc => by
    by_cases h : acc = [] <;> simp [tokenize_aux, h]
  | c :: rest, acc => by
    intro t ht
    by_cases hsp : c = ' '
    · subst hsp
      by_cases h : acc = [] <;> simp [tokenize_aux, h] at ht
      · exact tokenize_aux_ne_nil ly rest [] t ht
      · rcases ht with rfl | ht
        · simpa using h
        · exact tokenize_aux_ne_nil ly rest [] t ht
    · by_cases hm : ly && isMarker c
      · by_cases h : acc = [] <;> simp [tokenize_aux, hsp, hm, h] at ht
        · rcases ht with rfl | ht
          · simp
          · exact tokenize_aux_ne_nil ly rest [] t ht
        · rcases ht with rfl | rfl | ht
          · simpa using h
          · simp
          · exact tokenize_aux_ne_nil ly rest [] t ht
      · simp only [tokenize_aux, hsp, hm, if_false, if_neg hsp] at ht
        exact tokenize_aux_ne_nil ly rest (c :: acc) t ht

/-- C9: concatenating the tokens of `tokenize_line L true` in order yields
exactly `L` with every ASCII space removed, and no token is empty. -/
theorem C9_tokenize_lossless (L : List Char) :
    (tokenize_line L true).foldr (· ++ ·) [] = L.filter (fun c => !(c == ' '))
    ∧ ∀ t ∈ tokenize_line L true, t ≠ [] :=
  ⟨by simpa using tokenize_aux_join true L [],
   fun t ht => tokenize_aux_ne_nil true L [] t ht⟩

/-- C9 witness: the lossless-tokenization property evaluated on a concrete
line and token. -/
theorem C9_tokenize_lossless_witness :
    (tokenize_line (sl "[00:01.00] a b") true).foldr (· ++ ·) []
      = (sl "[00:01.00] a b").filter (fun c => !(c == ' '))
    ∧ sl "00:01.00" ≠ ([] : List Char) :=
  ⟨(C9_tokenize_lossless (sl "[00:01.00] a b")).1,
   (C9_tokenize_lossless (sl "[00:01.00] a b")).2 (sl "00:01.00") (by decide)⟩

/-- Every token of the lyrics-mode tokenizer is a singleton marker or a
non-empty space- and marker-free word. -/
theorem tokenize_aux_wf :
    ∀ (s acc : List Char), (∀ c ∈ acc, c ≠ ' ' ∧ isMarker c = false) →
      ∀ t ∈ tokenize_aux true s acc, markerTok t ∨ wfTok t
  | [], acc => by
    intro hacc t ht
    by_cases h : acc = [] <;> simp [tokenize_aux, h] at ht
    subst ht
    exact Or.inr ⟨by simpa using h, fun c hc => hacc c (by simpa using hc)⟩
  | c :: rest, acc => by
    intro hacc t ht
    by_cases hsp : c = ' '
    · subst hsp
      by_cases h : acc = [] <;> simp [tokenize_aux, h] at ht
      · exact tokenize_aux_wf rest [] (by simp) t ht
      · rcases ht with rfl | ht
        · exact Or.inr ⟨by simpa using h, fun c hc => hacc c (by simpa using hc)⟩
        · exact tokenize_aux_wf rest [] (by simp) t ht
    · by_cases hm : isMarker c
      · have hmm : markerTok [c] := by
          have hone : c = '[' ∨ c = ']' ∨ c = '<' ∨ c = '>' := by
            by_contra hC
            push_neg at hC
            simp [isMarker, hC.1, hC.2.1, hC.2.2.1, hC.2.2.2] at hm
          rcases hone with rfl | rfl | rfl | rfl <;> simp [markerTok]
        by_cases h : acc = [] <;>
          simp [tokenize_aux, hsp, hm, h] at ht
        · rcases ht with rfl | ht
          · exact Or.inl hmm
          · exact tokenize_aux_wf rest [] (by simp) t ht
        · rcases ht with rfl | rfl | ht
          · exact Or.inr ⟨by simpa using h, fun c hc => hacc c (by simpa using hc)⟩
          · exact Or.inl hmm
          · exact tokenize_aux_wf rest [] (by simp) t ht
      · simp only [tokenize_aux, if_neg hsp, hm, Bool.and_false, Bool.false_eq_true,
          if_false, true_and] at ht
        exact tokenize_aux_wf rest (c :: acc)
          (by
            intro x hx
            rcases List.mem_cons.mp hx with rfl | hx
            · exact ⟨hsp, by simpa using hm⟩
            · exact hacc x hx) t ht

/-- Feeding a space- and marker-free word to the tokenizer just extends the
accumulator. -/
theorem tokenize_aux_append_tok :
    ∀ (t : List Char), (∀ c ∈ t, c ≠ ' ' ∧ isMarker c = false) →
      ∀ (s acc : List Char),
        tokenize_aux true (t ++ s) acc = tokenize_aux true s (t.reverse ++ acc)
  | [], _ => by intro s acc; simp
  | c :: t', h => by
    intro s acc
    have hc := h c (by simp)
    have ht' : ∀ x ∈ t', x ≠ ' ' ∧ isMarker x = false := fun x hx => h x (by simp [hx])
    simp only [List.cons_append, tokenize_aux, if_neg hc.1, hc.2, Bool.and_false,
      Bool.false_eq_true, if_false, true_and]
    simpa using tokenize_aux_append_tok t' ht' s (c :: acc)

/-- A well-formed word token is not a bracket marker token. -/
theorem wfTok_not_marker {t : List Char} (h : wfTok t) : ¬ markerTok t := by
  rintro (rfl | rfl | rfl | rfl)
  · exact absurd (h.2 '[' (by simp)).2 (by decide)
  · exact absurd (h.2 ']' (by simp)).2 (by decide)
  · exact absurd (h.2 '<' (by simp)).2 (by decide)
  · exact absurd (h.2 '>' (by simp)).2 (by decide)

/-- A leading joint (empty or a single space) is skipped when no token is
being accumulated. -/
theorem tokenize_aux_joint_skip (b : Bool) (s : List Char) :
    tokenize_aux true ((if b then [] else [' ']) ++ s) [] = tokenize_aux true s [] := by
  cases b <;> simp [tokenize_aux]

/-- Retokenization continuation: serializing any token list whose members
are markers or well-formed words, none equal to the lone-colon token ":",
and tokenizing the result reproduces the tokens.  The first component
handles a pending word `u` in the accumulator; the second a fresh
accumulator after any previous token `m`. -/
theorem tok_srest :
    ∀ (rest : List (List Char)),
      (∀ t ∈ rest, markerTok t ∨ wfTok t) → [':'] ∉ rest →
      (∀ u, wfTok u → ¬ markerTok u →
        tokenize_aux true (serialize_rest [' '] true u rest) u.reverse = u :: rest)
      ∧ (∀ m : List Char,
        tokenize_aux true (serialize_rest [' '] true m rest) [] = rest)
  | [] => by
    intro _ _
    constructor
    · intro u hu _
      have hur : u.reverse ≠ [] := by simpa using hu.1
      simp [serialize_rest, tokenize_aux, hur]
    · intro m
      simp [serialize_rest, tokenize_aux]
  | v :: r' => by
    intro hwf hnc
    have hv := hwf v (by simp)
    have hr : ∀ t ∈ r', markerTok t ∨ wfTok t := fun t ht => hwf t (by simp [ht])
    have hvnc : v ≠ [':'] := by intro h; exact hnc (by simp [h])
    have hrnc : [':'] ∉ r' := fun h => hnc (by simp [h])
    have IH := tok_srest r' hr hrnc
    have hvcont : tokenize_aux true (v ++ serialize_rest [' '] true v r') [] = v :: r' := by
      rcases hv with hmv | hwv
      · rcases hmv with rfl | rfl | rfl | rfl <;>
          simp [tokenize_aux, isMarker, IH.2]
      · have h1 := tokenize_aux_append_tok v hwv.2 (serialize_rest [' '] true v r') []
        rw [h1]
        simpa using IH.1 v hwv (wfTok_not_marker hwv)
    constructor
    · intro u hu hnm
      have hur : u.reverse ≠ [] := by simpa using hu.1
      have hu4 : u ≠ ['['] ∧ u ≠ ['<'] := by
        constructor <;> intro h <;> exact hnm (by simp [markerTok, h])
      rcases hv with hmv | hwv
      · rcases hmv with rfl | rfl | rfl | rfl
        · -- v = "[" : a joint is written, then the marker restarts the scan
          simp [serialize_rest, hu4.1, hu4.2, tokenize_aux, isMarker, hur, IH.2]
        · -- v = "]" : no joint; the marker itself flushes the accumulator
          simp [serialize_rest, hu4.1, hu4.2, tokenize_aux, isMarker, hur, IH.2]
        · simp [serialize_rest, hu4.1, hu4.2, tokenize_aux, isMarker, hur, IH.2]
        · simp [serialize_rest, hu4.1, hu4.2, tokenize_aux, isMarker, hur, IH.2]
      · have hv4 : v ≠ [']'] ∧ v ≠ ['>'] := by
          constructor <;> intro h <;> exact (wfTok_not_marker hwv) (by simp [markerTok, h])
        -- ordinary word after ordinary word: a joint space separates them
        have hser : serialize_rest [' '] true u (v :: r') =
            [' '] ++ (v ++ serialize_rest [' '] true v r') := by
          simp [serialize_rest, hu4.1, hu4.2, hv4.1, hv4.2, hvnc]
        rw [hser]
        simpa [tokenize_aux, hur] using hvcont
    · intro m
      rcases Bool.eq_false_or_eq_true (decide (m = ['[']) || decide (v = [']'])
          || decide (m = ['<']) || decide (v = ['>']) || decide (v = [':'])) with hb | hb
      · have hser : serialize_rest [' '] true m (v :: r') =
            v ++ serialize_rest [' '] true v r' := by
          simp [serialize_rest, hb]
        rw [hser]
        exact hvcont
      · have hser : serialize_rest [' '] true m (v :: r') =
            ' ' :: (v ++ serialize_rest [' '] true v r') := by
          simp [serialize_rest, hb]
        have hsp : tokenize_aux true (' ' :: (v ++ serialize_rest [' '] true v r')) []
            = tokenize_aux true (v ++ serialize_rest [' '] true v r') [] := by
          simp [tokenize_aux]
        rw [hser, hsp]
        exact hvcont


/-- Retokenizing the serialization of a well-formed token list without a
lone-colon token reproduces the token list. -/
theorem tokenize_serialize_id (ts : List (List Char))
    (hwf : ∀ t ∈ ts, markerTok t ∨ wfTok t) (hnc : [':'] ∉ ts) :
    tokenize_line (serialize_tokens ts [' '] true) true = ts := by
  cases ts with
  | nil => rfl
  | cons t rest =>
    have hrest : ∀ x ∈ rest, markerTok x ∨ wfTok x := fun x hx => hwf x (by simp [hx])
    have hrnc : [':'] ∉ rest := fun h => hnc (by simp [h])
    have H := tok_srest rest hrest hrnc
    rcases hwf t (by simp) with hm | hw
    · rcases hm with rfl | rfl | rfl | rfl <;>
        simp [tokenize_line, serialize_tokens, tokenize_aux, isMarker, H.2]
    · show tokenize_aux true (t ++ serialize_rest [' '] true t rest) [] = t :: rest
      rw [tokenize_aux_append_tok t hw.2]
      simpa using H.1 t hw (wfTok_not_marker hw)

/-- Every token produced by the lyrics-mode tokenizer is free of spaces. -/
theorem tokens_space_free {t : List Char} (h : markerTok t ∨ wfTok t) :
    ∀ c ∈ t, c ≠ ' ' := by
  rcases h with (rfl | rfl | rfl | rfl) | hw
  · intro c hc; simp at hc; subst hc; decide
  · intro c hc; simp at hc; subst hc; decide
  · intro c hc; simp at hc; subst hc; decide
  · intro c hc; simp at hc; subst hc; decide
  · exact fun c hc => (hw.2 c hc).1

/-- Serialization with a space joint only inserts spaces: filtering them out
leaves the concatenation of the (space-free) tokens. -/
theorem filter_serialize_rest :
    ∀ (ts : List (List Char)) (prev : List Char),
      (∀ t ∈ ts, ∀ c ∈ t, c ≠ ' ') →
      (serialize_rest [' '] true prev ts).filter (fun c => !(c == ' '))
        = ts.foldr (· ++ ·) []
  | [], _ => by intro _; rfl
  | v :: r, prev => by
    intro h
    have hv : ∀ c ∈ v, c ≠ ' ' := h v (by simp)
    have hfv : v.filter (fun c => !(c == ' ')) = v :=
      List.filter_eq_self.mpr (fun c hc => by simp [hv c hc])
    rcases Bool.eq_false_or_eq_true (decide (prev = ['[']) || decide (v = [']'])
        || decide (prev = ['<']) || decide (v = ['>']) || decide (v = [':'])) with hb | hb
    · have hser : serialize_rest [' '] true prev (v :: r) =
          v ++ serialize_rest [' '] true v r := by
        simp [serialize_rest, hb]
      rw [hser]
      simp [List.filter_append, hfv,
        filter_serialize_rest r v (fun t ht => h t (by simp [ht]))]
    · have hser : serialize_rest [' '] true prev (v :: r) =
          ' ' :: (v ++ serialize_rest [' '] true v r) := by
        simp [serialize_rest, hb]
      rw [hser]
      simp [List.filter_append, hfv,
        filter_serialize_rest r v (fun t ht => h t (by simp [ht]))]

/-- As `filter_serialize_rest`, from the head of the token list. -/
theorem filter_serialize (ts : List (List Char))
    (h : ∀ t ∈ ts, ∀ c ∈ t, c ≠ ' ') :
    (serialize_tokens ts [' '] true).filter (fun c => !(c == ' '))
      = ts.foldr (· ++ ·) [] := by
  cases ts with
  | nil => rfl
  | cons t rest =>
    have hft : t.filter (fun c => !(c == ' ')) = t :=
      List.filter_eq_self.mpr (fun c hc => by simp [h t (by simp) c hc])
    show (t ++ serialize_rest [' '] true t rest).filter (fun c => !(c == ' ')) = _
    rw [List.filter_append, hft,
      filter_serialize_rest rest t (fun x hx => h x (by simp [hx]))]
    rfl

/-- C6 (counterexample): the claim fails on the code in both respects.  For
`L = "a  b"` no space is adjacent to a bracket marker, yet the double space
collapses, so spaces away from markers are not preserved; and for
`L = "] : :"` the transformation is not idempotent: the first pass yields
"]::" and the second "] ::". -/
theorem C6_roundtrip_refuted :
    serialize_tokens (tokenize_line (sl "a  b") true) [' '] true ≠ sl "a  b"
    ∧ serialize_tokens (tokenize_line
        (serialize_tokens (tokenize_line (sl "] : :") true) [' '] true) true) [' '] true
      ≠ serialize_tokens (tokenize_line (sl "] : :") true) [' '] true := by
  decide

/-- C6 (amended): `serialize(tokenize(L, true), " ", true)` equals `L` on the
subsequence of non-space characters (only whitespace placement changes, per
the joint rules), and the transformation is idempotent whenever the
tokenization of `L` has no token consisting of the single character ':'. -/
theorem C6_serialize_normalizes (L : List Char) :
    (serialize_tokens (tokenize_line L true) [' '] true).filter (fun c => !(c == ' '))
      = L.filter (fun c => !(c == ' '))
    ∧ ([':'] ∉ tokenize_line L true →
        serialize_tokens (tokenize_line
            (serialize_tokens (tokenize_line L true) [' '] true) true) [' '] true
          = serialize_tokens (tokenize_line L true) [' '] true) := by
  have hwf : ∀ t ∈ tokenize_line L true, markerTok t ∨ wfTok t :=
    tokenize_aux_wf L [] (by simp)
  constructor
  · rw [filter_serialize _ (fun t ht => tokens_space_free (hwf t ht))]
    simpa using tokenize_aux_join true L []
  · intro hnc
    rw [tokenize_serialize_id _ hwf hnc]

/-- C6 witness: normalization and idempotence evaluated on a concrete lyric
line whose tokenization has no lone-colon token. -/
theorem C6_serialize_normalizes_witness :
    (serialize_tokens (tokenize_line (sl "[12:00.00] hi") true) [' '] true).filter
        (fun c => !(c == ' '))
      = (sl "[12:00.00] hi").filter (fun c => !(c == ' '))
    ∧ serialize_tokens (tokenize_line
          (serialize_tokens (tokenize_line (sl "[12:00.00] hi") true) [' '] true) true)
        [' '] true
      = serialize_tokens (tokenize_line (sl "[12:00.00] hi") true) [' '] true :=
  ⟨(C6_serialize_normalizes (sl "[12:00.00] hi")).1,
   (C6_serialize_normalizes (sl "[12:00.00] hi")).2 (by decide)⟩

/-- A character accepted by `isDigitC` is one of the ten digits. -/
theorem isDigitC_mem {c : Char} (h : isDigitC c = true) :
    c ∈ ['0', '1', '2', '3', '4', '5', '6', '7', '8', '9'] := by
  by_contra hC
  simp only [List.mem_cons, List.not_mem_nil, or_false, not_or] at hC
  obtain ⟨h0, h1, h2, h3, h4, h5, h6, h7, h8, h9⟩ := hC
  simp [isDigitC, h0, h1, h2, h3, h4, h5, h6, h7, h8, h9] at h

/-- Digit characters are none of the separator, sign or space characters. -/
theorem isDigitC_spec {c : Char} (h : isDigitC c = true) :
    c ≠ ':' ∧ c ≠ '.' ∧ c ≠ '-' ∧ c ≠ '+' ∧ isSpaceChar c = false := by
  have hm := isDigitC_mem h
  fin_cases hm <;> exact ⟨by decide, by decide, by decide, by decide, by decide⟩

/-- `digitChar` produces a digit character below ten. -/
theorem isDigitC_digitChar {n : Nat} (h : n < 10) : isDigitC (digitChar n) = true := by
  interval_cases n <;> decide

/-- `charVal` inverts `digitChar` below ten. -/
theorem charVal_digitChar {n : Nat} (h : n < 10) : charVal (digitChar n) = n := by
  interval_cases n <;> decide

/-- Appending one digit multiplies the value by ten and adds the digit. -/
theorem digitsVal_append_digit (xs : List Char) (c : Char) :
    digitsVal (xs ++ [c]) = 10 * digitsVal xs + charVal c := by
  simp [digitsVal, List.foldl_append]
  omega

/-- With enough fuel, the decimal rendering evaluates back to its input, is
made of digits, and is non-empty. -/
theorem ntdAux_spec : ∀ (fuel n : Nat), n < fuel →
    digitsVal (ntdAux fuel n) = n
    ∧ (∀ c ∈ ntdAux fuel n, isDigitC c = true)
    ∧ ntdAux fuel n ≠ []
  | 0, n => by omega
  | fuel + 1, n => by
    intro hn
    by_cases h10 : n < 10
    · refine ⟨?_, ?_, by simp [ntdAux, h10]⟩
      · simp [ntdAux, h10, digitsVal, charVal_digitChar h10]
      · intro c hc
        simp [ntdAux, h10] at hc
        subst hc
        exact isDigitC_digitChar h10
    · have hrec : n / 10 < fuel := by
        have := Nat.div_lt_self (by omega : 0 < n) (by omega : 1 < 10)
        omega
      have IH := ntdAux_spec fuel (n / 10) hrec
      have hmod : n % 10 < 10 := Nat.mod_lt n (by omega)
      refine ⟨?_, ?_, by simp [ntdAux, h10, IH.2.2]⟩
      · simp only [ntdAux, h10, if_false]
        rw [digitsVal_append_digit, IH.1, charVal_digitChar hmod]
        omega
      · intro c hc
        simp only [ntdAux, h10, if_false, List.mem_append, List.mem_singleton] at hc
        rcases hc with hc | rfl
        · exact IH.2.1 c hc
        · exact isDigitC_digitChar hmod

/-- The rendering of a value below ten is its single digit. -/
theorem ntdAux_small {fuel m : Nat} (hm : m < 10) (hf : 0 < fuel) :
    ntdAux fuel m = [digitChar m] := by
  cases fuel with
  | zero => omega
  | succ fuel => simp [ntdAux, hm]

/-- Every character of a padded component is a digit. -/
theorem pad2_digits {n : Nat} : ∀ c ∈ pad2 n, isDigitC c = true := by
  intro c hc
  simp only [pad2, List.mem_append] at hc
  rcases hc with hc | hc
  · have : c = '0' := by
      by_cases h : n < 10 <;> simp [h] at hc
      exact hc
    subst this; decide
  · exact (ntdAux_spec (n + 1) n (by omega)).2.1 c hc

/-- A padded component is never empty. -/
theorem pad2_ne_nil (n : Nat) : pad2 n ≠ [] := by
  intro h
  rcases List.append_eq_nil.mp h with ⟨_, h2⟩
  exact (ntdAux_spec (n + 1) n (by omega)).2.2 h2

/-- The numeric value of the padded rendering is the value itself. -/
theorem digitsVal_pad2 (n : Nat) : digitsVal (pad2 n) = n := by
  have hv := (ntdAux_spec (n + 1) n (by omega)).1
  by_cases h : n < 10
  · have : pad2 n = '0' :: natToDigits n := by simp [pad2, h]
    rw [this]
    show List.foldl (fun a c => a * 10 + charVal c) ((0 : Nat) * 10 + charVal '0') _ = n
    have h0 : (0 : Nat) * 10 + charVal '0' = 0 := by decide
    rw [h0]
    exact hv
  · simp [pad2, h]
    exact hv

/-- Below 100, the padded rendering is the two expected digit characters. -/
theorem pad2_eq {n : Nat} (h : n < 100) :
    pad2 n = [digitChar (n / 10), digitChar (n % 10)] := by
  by_cases h10 : n < 10
  · have hdiv : n / 10 = 0 := Nat.div_eq_of_lt h10
    have hmod : n % 10 = n := Nat.mod_eq_of_lt h10
    simp [pad2, h10, natToDigits, ntdAux, hdiv, hmod, digitChar]
  · have hq : n / 10 < 10 := by omega
    have : natToDigits n = [digitChar (n / 10), digitChar (n % 10)] := by
      have h1 : ntdAux n (n / 10) = [digitChar (n / 10)] := ntdAux_small hq (by omega)
      simp [natToDigits, ntdAux, h10, h1]
    simp [pad2, h10, this]

/-- Below 100, the padded rendering has exactly two characters. -/
theorem pad2_len2 {n : Nat} (h : n < 100) : (pad2 n).length = 2 := by
  rw [pad2_eq h]; rfl

/-- Dropping past an appended prefix. -/
theorem drop_app : ∀ (xs ys : List Char) (k : Nat),
    (xs ++ ys).drop (xs.length + k) = ys.drop k
  | [], ys, k => by simp
  | x :: xs, ys, k => by simpa [Nat.succ_add] using drop_app xs ys k

/-- Taking across an appended prefix. -/
theorem take_app : ∀ (xs ys : List Char) (k : Nat),
    (xs ++ ys).take (xs.length + k) = xs ++ ys.take k
  | [], ys, k => by simp
  | x :: xs, ys, k => by simp [Nat.succ_add, take_app xs ys k]

/-- `findIdx` skips a prefix on which the predicate is false. -/
theorem findIdx_app (p : Char → Bool) : ∀ (xs ys : List Char),
    (∀ x ∈ xs, p x = false) → (xs ++ ys).findIdx p = xs.length + ys.findIdx p
  | [], ys => by simp
  | x :: xs, ys => by
    intro h
    have hx := h x (by simp)
    simp [List.findIdx_cons, hx, findIdx_app p xs ys (fun a ha => h a (by simp [ha])),
      Nat.succ_add]

/-- `takeWhile` keeps exactly a satisfying prefix followed by a failing
head. -/
theorem takeWhile_app (p : Char → Bool) : ∀ (xs ys : List Char),
    (∀ x ∈ xs, p x = true) → (∀ c, ys.head? = some c → p c = false) →
    (xs ++ ys).takeWhile p = xs
  | [], ys => by
    intro _ hy
    cases ys with
    | nil => rfl
    | cons c cs => simp [List.takeWhile_cons, hy c rfl]
  | x :: xs, ys => by
    intro hx hy
    simp [List.takeWhile_cons, hx x (by simp),
      takeWhile_app p xs ys (fun a ha => hx a (by simp [ha])) hy]

/-- `std::stol` on a non-empty digit string followed by a non-digit (or
nothing), with a value in the range of `long`, reads exactly the digit
prefix. -/
theorem stol_digits (ds rest : List Char) (hne : ds ≠ [])
    (hds : ∀ c ∈ ds, isDigitC c = true)
    (hbv : digitsVal ds ≤ 9223372036854775807)
    (hrest : ∀ c, rest.head? = some c → isDigitC c = false) :
    stol (ds ++ rest) = some ((digitsVal ds : Int)) := by
  obtain ⟨d, ds', rfl⟩ := List.exists_cons_of_ne_nil hne
  have hd := hds d (by simp)
  obtain ⟨_, _, hminus, hplus, hspace⟩ := isDigitC_spec hd
  have hdrop : (d :: ds' ++ rest).dropWhile isSpaceChar = d :: (ds' ++ rest) := by
    simp [List.dropWhile_cons, hspace]
  have htake : (d :: (ds' ++ rest)).takeWhile isDigitC = d :: ds' := by
    have : ((d :: ds') ++ rest).takeWhile isDigitC = d :: ds' :=
      takeWhile_app isDigitC (d :: ds') rest hds hrest
    simpa using this
  have hnb : ¬ (9223372036854775807 < digitsVal (d :: ds')) := not_lt.mpr hbv
  simp only [stol, hdrop, if_neg hminus, if_neg hplus, htake]
  simp [hnb]

/-- Non-digit characters do not occur in a padded component. -/
theorem not_mem_pad2 {c : Char} (hc : isDigitC c = false) (n : Nat) : c ∉ pad2 n :=
  fun h => absurd (pad2_digits c h) (by simp [hc])

/-- Every padded component passes the character test of
`is_it_a_timestamp`. -/
theorem pad2_all_tschar (n : Nat) :
    (pad2 n).all (fun x => isDigitC x || x = ':' || x = '.') = true :=
  List.all_eq_true.mpr (fun c hc => by simp [pad2_digits c hc])

/-- The canonical form contains exactly one ':' and one '.'. -/
theorem canonical_counts (neg : Bool) (mm ss cs : Nat) :
    (canonical_ts neg mm ss cs).count ':' = 1
    ∧ (canonical_ts neg mm ss cs).count '.' = 1 := by
  have hmm1 : (pad2 mm).count ':' = 0 := List.count_eq_zero.mpr (not_mem_pad2 (by decide) mm)
  have hss1 : (pad2 ss).count ':' = 0 := List.count_eq_zero.mpr (not_mem_pad2 (by decide) ss)
  have hcs1 : (pad2 cs).count ':' = 0 := List.count_eq_zero.mpr (not_mem_pad2 (by decide) cs)
  have hmm2 : (pad2 mm).count '.' = 0 := List.count_eq_zero.mpr (not_mem_pad2 (by decide) mm)
  have hss2 : (pad2 ss).count '.' = 0 := List.count_eq_zero.mpr (not_mem_pad2 (by decide) ss)
  have hcs2 : (pad2 cs).count '.' = 0 := List.count_eq_zero.mpr (not_mem_pad2 (by decide) cs)
  cases neg <;>
    constructor <;>
      simp [canonical_ts, List.count_append, List.count_cons, hmm1, hss1, hcs1,
        hmm2, hss2, hcs2]

/-- The canonical form passes the timestamp-shape predicate. -/
theorem is_ts_canonical (neg : Bool) (mm ss cs : Nat) :
    is_it_a_timestamp (canonical_ts neg mm ss cs) = true := by
  have hc := canonical_counts neg mm ss cs
  have hall : (pad2 mm ++ ':' :: pad2 ss ++ '.' :: pad2 cs).all
      (fun x => isDigitC x || x = ':' || x = '.') = true := by
    simp only [List.all_append, List.all_cons, pad2_all_tschar, Bool.and_true,
      Bool.true_and]
    simp
  cases neg with
  | true =>
    have hT : canonical_ts true mm ss cs
        = '-' :: (pad2 mm ++ ':' :: pad2 ss ++ '.' :: pad2 cs) := by
      simp [canonical_ts]
    rw [hT] at hc ⊢
    simp only [is_it_a_timestamp, Bool.and_eq_true, decide_eq_true_eq]
    refine ⟨⟨hc.1, hc.2⟩, ?_⟩
    simpa using hall
  | false =>
    obtain ⟨d, ds', hd⟩ := List.exists_cons_of_ne_nil (pad2_ne_nil mm)
    have hdd : isDigitC d = true := @pad2_digits mm d (by simp [hd])
    have hdm : d ≠ '-' := (isDigitC_spec hdd).2.2.1
    have hT : canonical_ts false mm ss cs
        = d :: (ds' ++ ':' :: pad2 ss ++ '.' :: pad2 cs) := by
      simp [canonical_ts, hd]
    have hall' : (d :: (ds' ++ ':' :: pad2 ss ++ '.' :: pad2 cs)).all
        (fun x => isDigitC x || x = ':' || x = '.') = true := by
      have heq : pad2 mm ++ ':' :: pad2 ss ++ '.' :: pad2 cs
          = d :: (ds' ++ ':' :: pad2 ss ++ '.' :: pad2 cs) := by simp [hd]
      rw [heq] at hall
      exact hall
    rw [hT] at hc ⊢
    simp only [is_it_a_timestamp, Bool.and_eq_true, decide_eq_true_eq]
    refine ⟨⟨hc.1, hc.2⟩, ?_⟩
    rw [if_neg hdm]
    exact hall'

/-- `std::stol` evaluates a padded component (optionally followed by a
non-digit separator) of a value within `long` range to that value. -/
theorem stol_pad2 (n : Nat) (rest : List Char)
    (hb : n ≤ 9223372036854775807)
    (hrest : ∀ c, rest.head? = some c → isDigitC c = false) :
    stol (pad2 n ++ rest) = some ((n : Nat) : Int) := by
  have hbv : digitsVal (pad2 n) ≤ 9223372036854775807 := by
    rw [digitsVal_pad2]; exact hb
  have := stol_digits (pad2 n) rest (pad2_ne_nil n) pad2_digits hbv hrest
  rwa [digitsVal_pad2] at this

/-- The `long` → `unsigned long` conversion is the identity on values that
fit. -/
theorem toU64_small {n : Nat} (h : n < 18446744073709551616) :
    toU64 ((n : Nat) : Int) = n := by
  unfold toU64
  have hm : ((n : Nat) : Int) % 18446744073709551616 = ((n : Nat) : Int) := by omega
  rw [hm, Int.toNat_natCast]

/-- The `unsigned long` → `int64_t` conversion is the identity below 2^63. -/
theorem toS64_small {n : Nat} (h : n < 9223372036854775808) : toS64 n = (n : Int) := by
  have hm : n % 18446744073709551616 = n := Nat.mod_eq_of_lt (by omega)
  simp only [toS64, hm]
  rw [if_pos h]

/-- Multiplying a small magnitude by `(unsigned long)(-1)` and reading the
result as `int64_t` negates it. -/
theorem toS64_negmul {n : Nat} (h : n < 9223372036854775808) :
    toS64 (n * 18446744073709551615) = -((n : Nat) : Int) := by
  by_cases h0 : n = 0
  · subst h0
    simp [toS64]
  · have hm : n * 18446744073709551615 % 18446744073709551616
        = 18446744073709551616 - n := by
      have hid : n * 18446744073709551615
          = 18446744073709551616 * (n - 1) + (18446744073709551616 - n) := by
        omega
      rw [hid, Nat.mul_add_mod]
      exact Nat.mod_eq_of_lt (by omega)
    simp only [toS64, hm]
    rw [if_neg (by omega)]
    omega

/-- `parse_timestamp` on the canonical form recovers the signed millisecond
value with no warning. -/
theorem parse_canonical (neg : Bool) (mm ss cs : Nat) (hss : ss ≤ 59) (hcs : cs ≤ 99)
    (hbound : mm * 60000 + ss * 1000 + cs * 10 < 9223372036854775808) :
    parse_timestamp (canonical_ts neg mm ss cs)
      = some (((mm * 60000 + ss * 1000 + cs * 10 : Nat) : Int)
          * (if neg then -1 else 1), none) := by
  have hls : (pad2 ss).length = 2 := pad2_len2 (by omega)
  have hlc : (pad2 cs).length = 2 := pad2_len2 (by omega)
  have hUmm : toU64 ((mm : Nat) : Int) = mm := toU64_small (by omega)
  have hUss : toU64 ((ss : Nat) : Int) = ss := toU64_small (by omega)
  have hUcs : toU64 ((cs : Nat) : Int) = cs := toU64_small (by omega)
  have hss60 : decide (60 ≤ ss) = false := by
    simp only [decide_eq_false_iff_not]; omega
  have hcs100 : decide (100 ≤ cs) = false := by
    simp only [decide_eq_false_iff_not]; omega
  have hpdot : ∀ x ∈ pad2 mm ++ ':' :: pad2 ss, (fun c => decide (c = '.')) x = false := by
    intro x hx
    rcases List.mem_append.mp hx with h | h
    · simp [(isDigitC_spec (pad2_digits x h)).2.1]
    · rcases List.mem_cons.mp h with rfl | h
      · decide
      · simp [(isDigitC_spec (pad2_digits x h)).2.1]
  have hpcolon : ∀ x ∈ pad2 mm, (fun c => decide (c = ':')) x = false := by
    intro x hx
    simp [(isDigitC_spec (pad2_digits x hx)).1]
  have hstol_ss : stol (pad2 ss) = some ((ss : Nat) : Int) := by
    simpa using stol_pad2 ss [] (by omega) (by simp)
  have hstol_cs : stol (pad2 cs) = some ((cs : Nat) : Int) := by
    simpa using stol_pad2 cs [] (by omega) (by simp)
  cases neg with
  | false =>
    obtain ⟨d, ds', hd⟩ := List.exists_cons_of_ne_nil (pad2_ne_nil mm)
    have hdd : isDigitC d = true := @pad2_digits mm d (by simp [hd])
    have hT : canonical_ts false mm ss cs
        = pad2 mm ++ ':' :: (pad2 ss ++ '.' :: pad2 cs) := by
      simp [canonical_ts]
    have hneg : (decide ((canonical_ts false mm ss cs).head? = some '-')) = false := by
      rw [hT, hd]
      simp [(isDigitC_spec hdd).2.2.1]
    have hcolon : (canonical_ts false mm ss cs).findIdx (fun c => decide (c = ':'))
        = (pad2 mm).length := by
      rw [hT, findIdx_app _ _ _ hpcolon]
      simp [List.findIdx_cons]
    have hdot : (canonical_ts false mm ss cs).findIdx (fun c => decide (c = '.'))
        = (pad2 mm).length + 3 := by
      have hT2 : canonical_ts false mm ss cs
          = (pad2 mm ++ ':' :: pad2 ss) ++ '.' :: pad2 cs := by
        simp [canonical_ts]
      rw [hT2, findIdx_app _ _ _ hpdot]
      simp [List.findIdx_cons, hls]
    have hlen : (canonical_ts false mm ss cs).length = (pad2 mm).length + 6 := by
      simp [canonical_ts, hls, hlc]
    have hmin : substr (canonical_ts false mm ss cs) 0 ((pad2 mm).length) = pad2 mm := by
      rw [substr, List.drop_zero, hT]
      simpa using take_app (pad2 mm) (':' :: (pad2 ss ++ '.' :: pad2 cs)) 0
    have hsec : substr (canonical_ts false mm ss cs) ((pad2 mm).length + 1)
        ((pad2 mm).length + 6 - ((pad2 mm).length + 3) - 1) = pad2 ss := by
      have hT3 : canonical_ts false mm ss cs
          = (pad2 mm ++ [':']) ++ (pad2 ss ++ '.' :: pad2 cs) := by
        simp [canonical_ts]
      have harg : (pad2 mm).length + 6 - ((pad2 mm).length + 3) - 1 = 2 := by omega
      have hstart : (pad2 mm).length + 1 = (pad2 mm ++ [':']).length + 0 := by simp
      rw [substr, hT3, harg, hstart, drop_app]
      rw [List.drop_zero, ← hls]
      simpa using take_app (pad2 ss) ('.' :: pad2 cs) 0
    have hcent : substr (canonical_ts false mm ss cs) ((pad2 mm).length + 3 + 1)
        ((pad2 mm).length + 6 - ((pad2 mm).length + 3) - 1) = pad2 cs := by
      have hT4 : canonical_ts false mm ss cs
          = (pad2 mm ++ ':' :: pad2 ss ++ ['.']) ++ pad2 cs := by
        simp [canonical_ts]
      have harg : (pad2 mm).length + 6 - ((pad2 mm).length + 3) - 1 = 2 := by omega
      have hstart : (pad2 mm).length + 3 + 1 = (pad2 mm ++ ':' :: pad2 ss ++ ['.']).length + 0 := by
        simp [hls]
      rw [substr, hT4, harg, hstart, drop_app]
      rw [List.drop_zero, ← hlc]
      exact List.take_length _
    have hstol_mm : stol (pad2 mm) = some ((mm : Nat) : Int) := by
      simpa using stol_pad2 mm [] (by omega) (by simp)
    have hdur : toS64 (mm * 60000 + ss * 1000 + cs * 10)
        = ((mm * 60000 + ss * 1000 + cs * 10 : Nat) : Int) := toS64_small hbound
    simp only [parse_timestamp, is_ts_canonical, Bool.true_eq_false, not_true_eq_false,
      if_false, hcolon, hdot, hneg, hlen, Bool.false_eq_true, if_false, hmin, hsec, hcent,
      hstol_mm, hstol_ss, hstol_cs, hUmm, hUss, hUcs, hss60, hcs100, Bool.or_self,
      Bool.or_false, if_true, Nat.mul_one, mul_one, hdur]
  | true =>
    have hT : canonical_ts true mm ss cs
        = '-' :: (pad2 mm ++ ':' :: (pad2 ss ++ '.' :: pad2 cs)) := by
      simp [canonical_ts]
    have hneg : (decide ((canonical_ts true mm ss cs).head? = some '-')) = true := by
      rw [hT]; simp
    have hcolon : (canonical_ts true mm ss cs).findIdx (fun c => decide (c = ':'))
        = (pad2 mm).length + 1 := by
      have hT2 : canonical_ts true mm ss cs
          = (['-'] ++ pad2 mm) ++ ':' :: (pad2 ss ++ '.' :: pad2 cs) := by
        simp [canonical_ts]
      have hp : ∀ x ∈ ['-'] ++ pad2 mm, (fun c => decide (c = ':')) x = false := by
        intro x hx
        rcases List.mem_append.mp hx with h | h
        · simp at h; subst h; decide
        · exact hpcolon x h
      rw [hT2, findIdx_app _ _ _ hp]
      simp [List.findIdx_cons]
    have hdot : (canonical_ts true mm ss cs).findIdx (fun c => decide (c = '.'))
        = (pad2 mm).length + 4 := by
      have hT2 : canonical_ts true mm ss cs
          = (['-'] ++ (pad2 mm ++ ':' :: pad2 ss)) ++ '.' :: pad2 cs := by
        simp [canonical_ts]
      have hp : ∀ x ∈ ['-'] ++ (pad2 mm ++ ':' :: pad2 ss),
          (fun c => decide (c = '.')) x = false := by
        intro x hx
        rcases List.mem_append.mp hx with h | h
        · simp at h; subst h; decide
        · exact hpdot x h
      rw [hT2, findIdx_app _ _ _ hp]
      simp [List.findIdx_cons, hls]
    have hlen : (canonical_ts true mm ss cs).length = (pad2 mm).length + 7 := by
      simp [canonical_ts, hls, hlc]
    have hmin : substr (canonical_ts true mm ss cs) 1 ((pad2 mm).length + 1)
        = pad2 mm ++ [':'] := by
      rw [substr, hT]
      show ((pad2 mm ++ ':' :: (pad2 ss ++ '.' :: pad2 cs))).take ((pad2 mm).length + 1)
          = pad2 mm ++ [':']
      simpa using take_app (pad2 mm) (':' :: (pad2 ss ++ '.' :: pad2 cs)) 1
    have hsec : substr (canonical_ts true mm ss cs) ((pad2 mm).length + 1 + 1)
        ((pad2 mm).length + 7 - ((pad2 mm).length + 4) - 1) = pad2 ss := by
      have hT3 : canonical_ts true mm ss cs
          = ('-' :: pad2 mm ++ [':']) ++ (pad2 ss ++ '.' :: pad2 cs) := by
        simp [canonical_ts]
      have harg : (pad2 mm).length + 7 - ((pad2 mm).length + 4) - 1 = 2 := by omega
      have hstart : (pad2 mm).length + 1 + 1 = ('-' :: pad2 mm ++ [':']).length + 0 := by
        simp
      rw [substr, hT3, harg, hstart, drop_app]
      rw [List.drop_zero, ← hls]
      simpa using take_app (pad2 ss) ('.' :: pad2 cs) 0
    have hcent : substr (canonical_ts true mm ss cs) ((pad2 mm).length + 4 + 1)
        ((pad2 mm).length + 7 - ((pad2 mm).length + 4) - 1) = pad2 cs := by
      have hT4 : canonical_ts true mm ss cs
          = ('-' :: pad2 mm ++ ':' :: pad2 ss ++ ['.']) ++ pad2 cs := by
        simp [canonical_ts]
      have harg : (pad2 mm).length + 7 - ((pad2 mm).length + 4) - 1 = 2 := by omega
      have hstart : (pad2 mm).length + 4 + 1
          = ('-' :: pad2 mm ++ ':' :: pad2 ss ++ ['.']).length + 0 := by
        simp [hls]
      rw [substr, hT4, harg, hstart, drop_app]
      rw [List.drop_zero, ← hlc]
      exact List.take_length _
    have hstol_mm : stol (pad2 mm ++ [':']) = some ((mm : Nat) : Int) := by
      refine stol_pad2 mm [':'] (by omega) ?_
      intro c hc
      simp at hc
      subst hc
      decide
    have hdur : toS64 ((mm * 60000 + ss * 1000 + cs * 10) * 18446744073709551615)
        = -((mm * 60000 + ss * 1000 + cs * 10 : Nat) : Int) := toS64_negmul hbound
    simp only [parse_timestamp, is_ts_canonical, Bool.true_eq_false, not_true_eq_false,
      if_false, hcolon, hdot, hneg, hlen, if_true, hmin, hsec, hcent,
      hstol_mm, hstol_ss, hstol_cs, hUmm, hUss, hUcs, hss60, hcs100, Bool.or_self,
      Bool.or_false, Bool.false_eq_true, mul_neg_one]
    rw [hdur]

/-- First progressive-reduction step: minutes. -/
theorem comp_div1 (mm ss cs : Nat) (hss : ss ≤ 59) (hcs : cs ≤ 99) :
    (mm * 60000 + ss * 1000 + cs * 10) / 60000 = mm := by
  rw [show mm * 60000 + ss * 1000 + cs * 10 = 60000 * mm + (ss * 1000 + cs * 10) by ring,
    Nat.mul_add_div (by omega)]
  have h : (ss * 1000 + cs * 10) / 60000 = 0 := Nat.div_eq_of_lt (by omega)
  omega

/-- Second progressive-reduction step: seconds. -/
theorem comp_div2 (ss cs : Nat) (hcs : cs ≤ 99) :
    (ss * 1000 + cs * 10) / 1000 = ss := by
  rw [show ss * 1000 + cs * 10 = 1000 * ss + cs * 10 by ring, Nat.mul_add_div (by omega)]
  have h : (cs * 10) / 1000 = 0 := Nat.div_eq_of_lt (by omega)
  omega

/-- `as_tsmap` recovers the components of a non-negative composite value. -/
theorem as_tsmap_split (mm ss cs : Nat) (hss : ss ≤ 59) (hcs : cs ≤ 99) :
    as_tsmap ((mm * 60000 + ss * 1000 + cs * 10 : Nat) : Int) false
      = ⟨false, mm, ss, cs⟩ := by
  have h0 : ¬ (((mm * 60000 + ss * 1000 + cs * 10 : Nat) : Int) < 0) :=
    not_lt.mpr (Int.natCast_nonneg _)
  have hsub : mm * 60000 + ss * 1000 + cs * 10 - mm * 60000 = ss * 1000 + cs * 10 := by
    omega
  have hsub2 : ss * 1000 + cs * 10 - ss * 1000 = cs * 10 := by omega
  have h10 : cs * 10 / 10 = cs := by simp
  simp only [as_tsmap, h0, if_false, Int.toNat_natCast, ts_components.mk.injEq]
  refine ⟨trivial, comp_div1 mm ss cs hss hcs, ?_, ?_⟩
  · rw [comp_div1 mm ss cs hss hcs, hsub, comp_div2 ss cs hcs]
  · rw [comp_div1 mm ss cs hss hcs, hsub, comp_div2 ss cs hcs, hsub2, h10]

/-- `as_tsmap` recovers the components of a negative composite value by
magnitude, with the sign flag set. -/
theorem as_tsmap_split_neg (mm ss cs : Nat) (hss : ss ≤ 59) (hcs : cs ≤ 99)
    (hpos : 0 < mm * 60000 + ss * 1000 + cs * 10) :
    as_tsmap (-((mm * 60000 + ss * 1000 + cs * 10 : Nat) : Int)) false
      = ⟨true, mm, ss, cs⟩ := by
  have hlt : (-((mm * 60000 + ss * 1000 + cs * 10 : Nat) : Int)) < 0 := by omega
  have hsub : mm * 60000 + ss * 1000 + cs * 10 - mm * 60000 = ss * 1000 + cs * 10 := by
    omega
  have hsub2 : ss * 1000 + cs * 10 - ss * 1000 = cs * 10 := by omega
  have h10 : cs * 10 / 10 = cs := by simp
  simp only [as_tsmap, hlt, if_true, if_false, Bool.false_eq_true, neg_neg,
    Int.toNat_natCast, ts_components.mk.injEq]
  refine ⟨trivial, comp_div1 mm ss cs hss hcs, ?_, ?_⟩
  · rw [comp_div1 mm ss cs hss hcs, hsub, comp_div2 ss cs hcs]
  · rw [comp_div1 mm ss cs hss hcs, hsub, comp_div2 ss cs hcs, hsub2, h10]

/-- `as_string` with filling renders the signed composite value in exactly
the canonical form. -/
theorem as_string_canonical (neg : Bool) (mm ss cs : Nat)
    (hss : ss ≤ 59) (hcs : cs ≤ 99)
    (hpos : neg = true → 0 < mm * 60000 + ss * 1000 + cs * 10) :
    as_string (((mm * 60000 + ss * 1000 + cs * 10 : Nat) : Int)
        * (if neg then -1 else 1)) false
      = canonical_ts neg mm ss cs := by
  cases neg with
  | false =>
    have hone : ((mm * 60000 + ss * 1000 + cs * 10 : Nat) : Int)
        * (if false then -1 else 1) = ((mm * 60000 + ss * 1000 + cs * 10 : Nat) : Int) := by
      simp
    have h0 : ¬ (((mm * 60000 + ss * 1000 + cs * 10 : Nat) : Int) < 0) :=
      not_lt.mpr (Int.natCast_nonneg _)
    rw [hone]
    simp only [as_string, as_tsmap_split mm ss cs hss hcs, h0, if_false,
      canonical_ts, pad2, Bool.not_false, Bool.and_true]
    simp
  | true =>
    have hN : 0 < mm * 60000 + ss * 1000 + cs * 10 := hpos rfl
    have hone : ((mm * 60000 + ss * 1000 + cs * 10 : Nat) : Int)
        * (if true then -1 else 1)
        = -((mm * 60000 + ss * 1000 + cs * 10 : Nat) : Int) := by
      simp
    have hlt : (-((mm * 60000 + ss * 1000 + cs * 10 : Nat) : Int)) < 0 := by omega
    rw [hone]
    simp only [as_string, as_tsmap_split_neg mm ss cs hss hcs hN, hlt, if_true,
      canonical_ts, pad2, Bool.not_false, Bool.and_true]
    simp

/-- C5 (counterexample): the round-trip fails as soon as the minutes
component leaves the range of `long`: "9223372036854775808:00.00" (minutes
= 2^63) is a well-formed canonical string by the shape predicate, but
`std::stol` throws `std::out_of_range` on its minutes component, so parsing
faults instead of producing a value to re-format. -/
theorem C5_roundtrip_refuted :
    is_it_a_timestamp (canonical_ts false 9223372036854775808 0 0) = true
    ∧ parse_timestamp (canonical_ts false 9223372036854775808 0 0) = none := by
  decide

/-- C5 (amended): for every well-formed canonical timestamp string —
optional '-' with non-zero magnitude, zero-padded minutes of at least two
digits, two-digit seconds 00–59 and centiseconds 00–99 — whose total
magnitude in milliseconds is below 2^63 (so the minutes fit in `long` and
the `unsigned long` composition never reaches the sign bit), parsing yields
the signed millisecond value with no warning, and formatting that value
reproduces the string byte-for-byte. -/
theorem C5_format_parse_roundtrip (neg : Bool) (mm ss cs : Nat)
    (hss : ss ≤ 59) (hcs : cs ≤ 99)
    (hpos : neg = true → 0 < mm * 60000 + ss * 1000 + cs * 10)
    (hbound : mm * 60000 + ss * 1000 + cs * 10 < 9223372036854775808) :
    parse_timestamp (canonical_ts neg mm ss cs)
      = some (((mm * 60000 + ss * 1000 + cs * 10 : Nat) : Int)
          * (if neg then -1 else 1), none)
    ∧ as_string (((mm * 60000 + ss * 1000 + cs * 10 : Nat) : Int)
        * (if neg then -1 else 1)) false
      = canonical_ts neg mm ss cs :=
  ⟨parse_canonical neg mm ss cs hss hcs hbound,
   as_string_canonical neg mm ss cs hss hcs hpos⟩

/-- C5 witness: the round-trip at "-01:02.03" and "12:34.56". -/
theorem C5_format_parse_roundtrip_witness :
    (parse_timestamp (canonical_ts true 1 2 3)
        = some (-62030, none)
      ∧ as_string (-62030) false = canonical_ts true 1 2 3)
    ∧ (parse_timestamp (canonical_ts false 12 34 56)
        = some (754560, none)
      ∧ as_string 754560 false = canonical_ts false 12 34 56) := by
  have h1 := C5_format_parse_roundtrip true 1 2 3 (by decide) (by decide) (by decide)
    (by decide)
  have h2 := C5_format_parse_roundtrip false 12 34 56 (by decide) (by decide)
    (by intro h; cases h) (by decide)
  constructor
  · refine ⟨?_, ?_⟩
    · have := h1.1
      simpa using this
    · have := h1.2
      simpa using this
  · refine ⟨?_, ?_⟩
    · have := h2.1
      simpa using this
    · have := h2.2
      simpa using this

end Syrinc
